import Mathlib

/-!
Shallow embedding of the streaming chat session consumer of the
`graphrag_agent` frontend (`src/frontend/src/app/(app)/dashboard/page.tsx`,
the `ChatPage` component, in particular its `handleSubmit` function).

JavaScript strings are modelled as lists of characters (`Str`).  The
transport is modelled as the list of text chunks the reader delivers,
`JSON.parse` as an abstract partial function `parse : Str → Option Frame`
(returning `none` where `JSON.parse` would throw), and React state updates
as explicit state passing.  Within one `handleSubmit` call the local
variable `conversationId` is a closure capture fixed at submit time, while
`setConversationId` updates the state that the next render observes; the
model therefore threads the *initial* conversation id (`cid0`) through the
guard and records each `setConversationId` in the evolving state, exactly
as the code behaves.
-/

namespace Graphrag

/-- JS strings, modelled as lists of characters. -/
abbrev Str := List Char

/-- The result of a successful `JSON.parse` of a frame payload, restricted to
the two fields the code reads (`parsed.conversation_id`, `parsed.content`).
`none` models an absent field. -/
structure Frame where
  conversation_id : Option Str
  content : Option Str
deriving DecidableEq

/-- JS truthiness of an optional string: `undefined` and `""` are falsy. -/
def truthy : Option Str → Bool
  | none => false
  | some s => !s.isEmpty

/-- `role` of a message: `"user" | "assistant"`. -/
inductive Role where
  | user
  | assistant
deriving DecidableEq

/-- The `Message` interface of the chat page. -/
structure Message where
  id : Str
  role : Role
  content : Str
deriving DecidableEq

/-- The component state the exchange touches: `messages`, `conversationId`,
`isStreaming`, `input`. -/
structure ChatState where
  messages : List Message
  conversationId : Option Str
  isStreaming : Bool
  input : Str
deriving DecidableEq

/-- The mutable state during one exchange (`setMessages` /
`setConversationId` targets). -/
structure ExchangeState where
  messages : List Message
  conversationId : Option Str
deriving DecidableEq

/-- ASCII whitespace recognised by `String.prototype.trim` on the inputs the
protocol uses. -/
def isWs (c : Char) : Bool := c = ' ' || c = '\t' || c = '\n' || c = '\r'

/-- `s.trim()`. -/
def trimL (s : Str) : Str :=
  ((s.dropWhile isWs).reverse.dropWhile isWs).reverse

/-- `chunk.split("\n")` -- JS `split` keeps empty pieces, so a trailing
newline yields a trailing empty line. -/
def splitNl : Str → List Str
  | [] => [[]]
  | c :: r =>
    if c = '\n' then [] :: splitNl r
    else
      match splitNl r with
      | [] => [[c]]
      | h :: t => (c :: h) :: t

/-- The frame marker `"data: "`. -/
def dataMarker : Str := "data: ".toList

/-- The terminator payload `"[DONE]"`. -/
def doneSentinel : Str := "[DONE]".toList

/-- The fixed error text written on a failed exchange. -/
def errorText : Str := "Error: Failed to get response. Please try again.".toList

/-- `setMessages(prev => prev.map(msg => msg.id === assistantId ?
\x7b ...msg, content: msg.content + frag \x7d : msg))`. -/
def appendToMessage (aid : Str) (frag : Str) (msgs : List Message) : List Message :=
  msgs.map fun m => if m.id = aid then { m with content := m.content ++ frag } else m

/-- The error overwrite in the `catch` branch: content replaced (not
appended) by the fixed error text on the message matching `assistantId`. -/
def overwriteError (aid : Str) (msgs : List Message) : List Message :=
  msgs.map fun m => if m.id = aid then { m with content := errorText } else m

/-- Processing of one line of a chunk, as the body of
`for (const line of lines)`: lines without the `"data: "` marker are
ignored; payload `"[DONE]"` is skipped (`continue`); a payload that parses
carries an optional conversation id (bound only when the closure-captured
`conversationId` -- here `cid0` -- was falsy) and an optional content
fragment (appended when truthy); a payload that fails to parse is appended
verbatim when non-empty after trimming. -/
def processLine (parse : Str → Option Frame) (cid0 : Option Str) (aid : Str)
    (st : ExchangeState) (line : Str) : ExchangeState :=
  if dataMarker.isPrefixOf line then
    let data := line.drop 6
    if data = doneSentinel then st
    else
      match parse data with
      | some parsed =>
        let st1 :=
          if truthy parsed.conversation_id && !truthy cid0 then
            { st with conversationId := parsed.conversation_id }
          else st
        match parsed.content with
        | some c =>
          if c.isEmpty then st1
          else { st1 with messages := appendToMessage aid c st1.messages }
        | none => st1
      | none =>
        if (trimL data).isEmpty then st
        else { st with messages := appendToMessage aid data st.messages }
  else st

/-- Processing of one chunk: split on `"\n"` and process each line.  The
code keeps no carry-over buffer between chunks. -/
def processChunk (parse : Str → Option Frame) (cid0 : Option Str) (aid : Str)
    (st : ExchangeState) (chunk : Str) : ExchangeState :=
  (splitNl chunk).foldl (processLine parse cid0 aid) st

/-- The read loop over all delivered chunks. -/
def processChunks (parse : Str → Option Frame) (cid0 : Option Str) (aid : Str)
    (st : ExchangeState) (chunks : List Str) : ExchangeState :=
  chunks.foldl (processChunk parse cid0 aid) st

/-- Outcome of the transport: either the reader delivers all chunks and the
stream closes (`ok`), or the request is rejected / the read throws after a
prefix of chunks was already processed (`fail`). -/
inductive Transport where
  | ok (chunks : List Str)
  | fail (chunksBefore : List Str)
deriving DecidableEq

/-- The `handleSubmit` handler of `ChatPage`: rejects blank or concurrent
submissions; otherwise appends the trimmed user message and an empty
assistant placeholder (ids `uid` = `Date.now().toString()`,
`aid` = `(Date.now() + 1).toString()`), runs the read loop, and on a
transport error overwrites the placeholder with the fixed error text.
`finally` clears `isStreaming`; `setInput("")` clears the input. -/
def handleSubmit (parse : Str → Option Frame) (uid aid : Str)
    (st : ChatState) (tr : Transport) : ChatState :=
  if (trimL st.input).isEmpty || st.isStreaming then st
  else
    let userMessage : Message := { id := uid, role := .user, content := trimL st.input }
    let msgs1 := st.messages ++ [userMessage, { id := aid, role := .assistant, content := [] }]
    match tr with
    | .ok chunks =>
      let ex := processChunks parse st.conversationId aid ⟨msgs1, st.conversationId⟩ chunks
      { messages := ex.messages, conversationId := ex.conversationId,
        isStreaming := false, input := [] }
    | .fail pre =>
      let ex := processChunks parse st.conversationId aid ⟨msgs1, st.conversationId⟩ pre
      { messages := overwriteError aid ex.messages, conversationId := ex.conversationId,
        isStreaming := false, input := [] }

/-- Decoded events, in the spec's vocabulary: a conversation-id binding or a
text fragment. -/
inductive Event where
  | convId (s : Str)
  | text (s : Str)
deriving DecidableEq

/-- The events one line gives rise to (empty for ignored lines, the
terminator line, and frames whose guards are falsy). -/
def lineEvents (parse : Str → Option Frame) (cid0 : Option Str) (line : Str) : List Event :=
  if dataMarker.isPrefixOf line then
    let data := line.drop 6
    if data = doneSentinel then []
    else
      match parse data with
      | some parsed =>
        (if truthy parsed.conversation_id && !truthy cid0 then
          [Event.convId (parsed.conversation_id.getD [])]
        else []) ++
        (match parsed.content with
         | some c => if c.isEmpty then [] else [Event.text c]
         | none => [])
      | none =>
        if (trimL data).isEmpty then [] else [Event.text data]
  else []

/-- The event sequence decoded from a chunk sequence (lines are taken per
chunk, as the code does). -/
def decodeEvents (parse : Str → Option Frame) (cid0 : Option Str)
    (chunks : List Str) : List Event :=
  ((chunks.map splitNl).flatten.map (lineEvents parse cid0)).flatten

/-- The effect of one decoded event on the exchange state. -/
def applyEvent (aid : Str) (st : ExchangeState) : Event → ExchangeState
  | .convId s => { st with conversationId := some s }
  | .text s => { st with messages := appendToMessage aid s st.messages }

/-- Concatenation of the text fragments of an event list, in order. -/
def eventTexts (es : List Event) : Str :=
  (es.map fun e => match e with | .text s => s | .convId _ => []).flatten

/-- Scan a JSON string body up to its closing quote; escapes do not occur in
the protocol's payloads and are rejected. -/
def scanStr : Str → Str → Option (Str × Str)
  | [], _ => none
  | c :: r, acc =>
    if c = '"' then some (acc.reverse, r)
    else if c = '\\' then none
    else scanStr r (c :: acc)

/-- Parse one `"key":"value"` pair, returning the remainder. -/
def parsePair (s : Str) : Option (Str × Str × Str) :=
  match s with
  | '"' :: r =>
    match scanStr r [] with
    | some (k, ':' :: '"' :: r2) =>
      match scanStr r2 [] with
      | some (v, r3) => some (k, v, r3)
      | none => none
    | _ => none
  | _ => none

/-- Parse the comma-separated field list of a flat object, expecting the
closing brace to end the payload. -/
def parseFieldsAux : Nat → Str → Option (List (Str × Str))
  | 0, _ => none
  | fuel + 1, s =>
    match parsePair s with
    | some (k, v, r) =>
      match r with
      | c :: rest =>
        if c = '\x7d' then (if rest = [] then some [(k, v)] else none)
        else if c = ',' then (parseFieldsAux fuel rest).map ((k, v) :: ·)
        else none
      | [] => none
    | none => none

/-- Look a field up by name (the protocol's payloads carry each key at most
once). -/
def fieldLookup (key : Str) (fields : List (Str × Str)) : Option Str :=
  (fields.find? fun kv => kv.1 = key).map (·.2)

/-- `JSON.parse`, modelled for the payload shapes of the framing protocol:
flat objects with unescaped string fields succeed, yielding the
`conversation_id` and `content` fields the code reads; every other payload
in use (plain text such as `not-json`, `[DONE]\r`, partial lines) makes
`JSON.parse` throw, modelled as `none`. -/
def miniParse (s : Str) : Option Frame :=
  match s with
  | '\x7b' :: r =>
    match r with
    | ['\x7d'] => some ⟨none, none⟩
    | _ =>
      match parseFieldsAux s.length r with
      | some fields =>
        some ⟨fieldLookup "conversation_id".toList fields, fieldLookup "content".toList fields⟩
      | none => none
  | _ => none

/-- The per-chunk event sequence. -/
def chunkEvents (parse : Str → Option Frame) (cid0 : Option Str) (chunk : Str) :
    List Event :=
  ((splitNl chunk).map (lineEvents parse cid0)).flatten

/-- A chunk is newline-terminated (or empty): every boundary it induces
falls on a line boundary. -/
def nlTerminated : Str → Bool
  | [] => true
  | [c] => c = '\n'
  | _ :: r => nlTerminated r

/-- The id and role of a message, which the code never mutates. -/
def idRole (m : Message) : Str × Role := (m.id, m.role)

/-- One submission of the chat form: the typed text, the two ids minted by
`Date.now()`, and the chunks of the (successful) response stream. -/
structure Submission where
  text : Str
  uid : Str
  aid : Str
  chunks : List Str

/-- Typing `sub.text` into the box and submitting with a stream that
completes normally. -/
def submitStep (parse : Str → Option Frame) (st : ChatState) (sub : Submission) :
    ChatState :=
  handleSubmit parse sub.uid sub.aid { st with input := sub.text } (.ok sub.chunks)

/-- A sequence of submissions, in order. -/
def runSubmits (parse : Str → Option Frame) (st : ChatState)
    (subs : List Submission) : ChatState :=
  subs.foldl (submitStep parse) st

/-- The spec's simple-exchange scenario stream. -/
def scenarioChunk : Str :=
  "data: \x7b\"conversation_id\":\"c1\"\x7d\n\ndata: \x7b\"content\":\"Hel\"\x7d\n\ndata: \x7b\"content\":\"lo\"\x7d\n\ndata: [DONE]\n".toList

/-! ### Basic lemmas -/

lemma truthy_eq_some {o : Option Str} (h : truthy o = true) :
    o = some (o.getD []) := by
  cases o with
  | none => simp [truthy] at h
  | some s => rfl

lemma appendToMessage_nil (aid : Str) (msgs : List Message) :
    appendToMessage aid [] msgs = msgs := by
  induction msgs with
  | nil => rfl
  | cons m r ih =>
    simp only [appendToMessage, List.map_cons] at ih ⊢
    rw [ih]
    cases m with
    | mk i ro co => by_cases h : i = aid <;> simp [h]

lemma appendToMessage_appendToMessage (aid a b : Str) (msgs : List Message) :
    appendToMessage aid b (appendToMessage aid a msgs) =
      appendToMessage aid (a ++ b) msgs := by
  induction msgs with
  | nil => rfl
  | cons m r ih =>
    simp only [appendToMessage, List.map_cons] at ih ⊢
    rw [ih]
    by_cases h : m.id = aid <;> simp [h]

lemma appendToMessage_of_forall_ne {aid : Str} {msgs : List Message}
    (h : ∀ m ∈ msgs, m.id ≠ aid) (c : Str) :
    appendToMessage aid c msgs = msgs := by
  induction msgs with
  | nil => rfl
  | cons m r ih =>
    simp only [appendToMessage, List.map_cons] at ih ⊢
    rw [ih fun x hx => h x (List.mem_cons_of_mem m hx)]
    simp [h m (List.mem_cons_self m r)]

lemma appendToMessage_append (aid c : Str) (l1 l2 : List Message) :
    appendToMessage aid c (l1 ++ l2) =
      appendToMessage aid c l1 ++ appendToMessage aid c l2 := by
  simp [appendToMessage]

lemma overwriteError_append (aid : Str) (l1 l2 : List Message) :
    overwriteError aid (l1 ++ l2) =
      overwriteError aid l1 ++ overwriteError aid l2 := by
  simp [overwriteError]

lemma overwriteError_of_forall_ne {aid : Str} {msgs : List Message}
    (h : ∀ m ∈ msgs, m.id ≠ aid) :
    overwriteError aid msgs = msgs := by
  induction msgs with
  | nil => rfl
  | cons m r ih =>
    simp only [overwriteError, List.map_cons] at ih ⊢
    rw [ih fun x hx => h x (List.mem_cons_of_mem m hx)]
    simp [h m (List.mem_cons_self m r)]

/-! ### Event decomposition of the read loop -/

lemma processLine_eq (parse : Str → Option Frame) (cid0 : Option Str) (aid : Str)
    (st : ExchangeState) (line : Str) :
    processLine parse cid0 aid st line =
      (lineEvents parse cid0 line).foldl (applyEvent aid) st := by
  unfold processLine lineEvents
  by_cases hp : dataMarker.isPrefixOf line
  · simp only [hp, if_true]
    by_cases hdone : line.drop 6 = doneSentinel
    · simp [hdone]
    · simp only [hdone, if_false]
      cases hparse : parse (line.drop 6) with
      | none =>
        by_cases htrim : (trimL (line.drop 6)).isEmpty
        · simp [htrim]
        · simp [htrim, applyEvent]
      | some parsed =>
        by_cases hguard : truthy parsed.conversation_id && !truthy cid0
        · have hcid := truthy_eq_some (Bool.and_elim_left hguard)
          cases hcontent : parsed.content with
          | none => simp [hguard, hcontent, applyEvent, ← hcid]
          | some c =>
            by_cases hc : c.isEmpty
            · simp [hguard, hcontent, hc, applyEvent, ← hcid]
            · simp [hguard, hcontent, hc, applyEvent, ← hcid]
        · cases hcontent : parsed.content with
          | none => simp [hguard, hcontent]
          | some c =>
            by_cases hc : c.isEmpty
            · simp [hguard, hcontent, hc]
            · simp [hguard, hcontent, hc, applyEvent]
  · simp [hp]

lemma foldl_applyEvent_append (aid : Str) (st : ExchangeState) (es1 es2 : List Event) :
    (es1 ++ es2).foldl (applyEvent aid) st =
      es2.foldl (applyEvent aid) (es1.foldl (applyEvent aid) st) :=
  List.foldl_append ..

lemma foldl_applyEvent_flatten (aid : Str) (ess : List (List Event)) (st : ExchangeState) :
    ess.flatten.foldl (applyEvent aid) st =
      ess.foldl (fun s es => es.foldl (applyEvent aid) s) st := by
  induction ess generalizing st with
  | nil => rfl
  | cons es r ih => simp [List.foldl_append, ih]

lemma processChunk_eq (parse : Str → Option Frame) (cid0 : Option Str) (aid : Str)
    (st : ExchangeState) (chunk : Str) :
    processChunk parse cid0 aid st chunk =
      (chunkEvents parse cid0 chunk).foldl (applyEvent aid) st := by
  unfold processChunk chunkEvents
  rw [foldl_applyEvent_flatten]
  induction splitNl chunk generalizing st with
  | nil => rfl
  | cons l r ih => simp [processLine_eq, ih]

lemma decodeEvents_eq (parse : Str → Option Frame) (cid0 : Option Str)
    (chunks : List Str) :
    decodeEvents parse cid0 chunks =
      (chunks.map (chunkEvents parse cid0)).flatten := by
  unfold decodeEvents chunkEvents
  induction chunks with
  | nil => rfl
  | cons c r ih => simp_all

lemma processChunks_eq (parse : Str → Option Frame) (cid0 : Option Str) (aid : Str)
    (st : ExchangeState) (chunks : List Str) :
    processChunks parse cid0 aid st chunks =
      (decodeEvents parse cid0 chunks).foldl (applyEvent aid) st := by
  rw [decodeEvents_eq, foldl_applyEvent_flatten]
  unfold processChunks
  induction chunks generalizing st with
  | nil => rfl
  | cons c r ih => simp [processChunk_eq, ih]

lemma foldl_applyEvent_messages (aid : Str) (es : List Event) (st : ExchangeState) :
    (es.foldl (applyEvent aid) st).messages =
      appendToMessage aid (eventTexts es) st.messages := by
  induction es generalizing st with
  | nil => simp [eventTexts, appendToMessage_nil]
  | cons e r ih =>
    cases e with
    | convId s => simp [eventTexts, applyEvent, ih]
    | text s =>
      simp only [List.foldl_cons, applyEvent, ih, eventTexts, List.map_cons,
        List.flatten_cons]
      rw [appendToMessage_appendToMessage]

/-! ### Chunk boundary lemmas -/

lemma nlTerminated_iff {c : Str} (h : nlTerminated c = true) :
    c = [] ∨ ∃ a, c = a ++ ['\n'] := by
  induction c with
  | nil => exact Or.inl rfl
  | cons x r ih =>
    cases r with
    | nil =>
      simp only [nlTerminated, decide_eq_true_eq] at h
      exact Or.inr ⟨[], by simp [h]⟩
    | cons y t =>
      rcases ih h with h0 | ⟨a, ha⟩
      · simp at h0
      · exact Or.inr ⟨x :: a, by simp [ha]⟩

lemma splitNl_cons_nl (r : Str) : splitNl ('\n' :: r) = [] :: splitNl r := by
  simp [splitNl]

lemma splitNl_cons_of_ne {c : Char} (h : c ≠ '\n') (r : Str) (x : Str) (t : List Str)
    (hS : splitNl r = x :: t) : splitNl (c :: r) = (c :: x) :: t := by
  simp [splitNl, h, hS]

lemma splitNl_ne_nil (s : Str) : splitNl s ≠ [] := by
  cases s with
  | nil => simp [splitNl]
  | cons c r =>
    by_cases h : c = '\n'
    · subst h; rw [splitNl_cons_nl]; simp
    · cases hS : splitNl r with
      | nil => exact absurd hS (splitNl_ne_nil r)
      | cons x t => rw [splitNl_cons_of_ne h r x t hS]; simp

lemma splitNl_cons' (r : Str) :
    ∃ x t, splitNl r = x :: t := by
  cases hS : splitNl r with
  | nil => exact absurd hS (splitNl_ne_nil r)
  | cons x t => exact ⟨x, t, rfl⟩

lemma splitNl_append_nl_two_le (r : Str) : 2 ≤ (splitNl (r ++ ['\n'])).length := by
  induction r with
  | nil => simp [splitNl]
  | cons c t ih =>
    rw [List.cons_append]
    by_cases h : c = '\n'
    · subst h
      rw [splitNl_cons_nl, List.length_cons]
      omega
    · obtain ⟨x, tl, hS⟩ := splitNl_cons' (t ++ ['\n'])
      rw [splitNl_cons_of_ne h _ _ _ hS]
      rw [hS] at ih
      simpa using ih

lemma splitNl_two_obtain (r : Str) :
    ∃ x y u, splitNl (r ++ ['\n']) = x :: y :: u := by
  have h2 := splitNl_append_nl_two_le r
  cases hS : splitNl (r ++ ['\n']) with
  | nil => exact absurd hS (splitNl_ne_nil _)
  | cons x t =>
    cases t with
    | nil => rw [hS] at h2; simp at h2
    | cons y u => exact ⟨x, y, u, rfl⟩

lemma splitNl_append_nl_decomp (a : Str) :
    splitNl (a ++ ['\n']) = (splitNl (a ++ ['\n'])).dropLast ++ [[]] := by
  induction a with
  | nil => rfl
  | cons c r ih =>
    rw [List.cons_append]
    by_cases h : c = '\n'
    · subst h
      rw [splitNl_cons_nl,
        List.dropLast_cons_of_ne_nil (splitNl_ne_nil (r ++ ['\n'])), List.cons_append]
      exact congrArg _ ih
    · obtain ⟨x, y, u, hS⟩ := splitNl_two_obtain r
      rw [splitNl_cons_of_ne h _ _ _ hS]
      rw [hS, List.dropLast_cons_of_ne_nil (List.cons_ne_nil y u), List.cons_append] at ih
      have htail : y :: u = (y :: u).dropLast ++ [[]] := (List.cons.injEq _ _ _ _ ▸ ih).2
      rw [List.dropLast_cons_of_ne_nil (List.cons_ne_nil y u), List.cons_append]
      exact congrArg _ htail

lemma splitNl_append_newline (a b : Str) :
    splitNl (a ++ '\n' :: b) = (splitNl (a ++ ['\n'])).dropLast ++ splitNl b := by
  induction a with
  | nil =>
    rw [List.nil_append, List.nil_append, splitNl_cons_nl]
    rfl
  | cons c r ih =>
    rw [List.cons_append, List.cons_append]
    by_cases h : c = '\n'
    · subst h
      rw [splitNl_cons_nl, splitNl_cons_nl,
        List.dropLast_cons_of_ne_nil (splitNl_ne_nil (r ++ ['\n'])), List.cons_append, ih]
    · obtain ⟨x, y, u, hS⟩ := splitNl_two_obtain r
      have hLHS : splitNl (r ++ '\n' :: b) = x :: ((y :: u).dropLast ++ splitNl b) := by
        rw [ih, hS, List.dropLast_cons_of_ne_nil (List.cons_ne_nil y u), List.cons_append]
      rw [splitNl_cons_of_ne h _ _ _ hLHS, splitNl_cons_of_ne h _ _ _ hS,
        List.dropLast_cons_of_ne_nil (List.cons_ne_nil y u), List.cons_append]

lemma lineEvents_nil (parse : Str → Option Frame) (cid0 : Option Str) :
    lineEvents parse cid0 [] = [] := by
  have h : dataMarker.isPrefixOf ([] : Str) = false := by decide
  simp [lineEvents, h]

lemma chunkEvents_append_of_terminated (parse : Str → Option Frame)
    (cid0 : Option Str) {a : Str} (b : Str) (ha : nlTerminated a = true) :
    chunkEvents parse cid0 (a ++ b) =
      chunkEvents parse cid0 a ++ chunkEvents parse cid0 b := by
  rcases nlTerminated_iff ha with h0 | ⟨a', rfl⟩
  · subst h0
    simp [chunkEvents, splitNl, lineEvents_nil]
  · have hx : a' ++ ['\n'] ++ b = a' ++ '\n' :: b := by simp
    unfold chunkEvents
    rw [hx, splitNl_append_newline, List.map_append, List.flatten_append]
    congr 1
    conv_rhs => rw [splitNl_append_nl_decomp a']
    rw [List.map_append, List.flatten_append]
    simp [lineEvents_nil]

lemma decodeEvents_flatten_of_terminated (parse : Str → Option Frame)
    (cid0 : Option Str) {cs : List Str} (h : ∀ c ∈ cs, nlTerminated c = true) :
    decodeEvents parse cid0 cs = chunkEvents parse cid0 cs.flatten := by
  induction cs with
  | nil => simp [decodeEvents_eq, chunkEvents, splitNl, lineEvents_nil]
  | cons c r ih =>
    rw [decodeEvents_eq] at ih ⊢
    simp only [List.map_cons, List.flatten_cons, List.flatten]
    rw [ih fun x hx => h x (List.mem_cons_of_mem c hx)]
    rw [← chunkEvents_append_of_terminated parse cid0 r.flatten
      (h c (List.mem_cons_self c r))]

/-! ### Payload dispatch lemmas -/

lemma dataMarker_isPrefixOf_append (data : Str) :
    dataMarker.isPrefixOf (dataMarker ++ data) = true := by
  rw [List.isPrefixOf_iff_prefix]
  exact List.prefix_append _ _

lemma drop_six_append (data : Str) : (dataMarker ++ data).drop 6 = data := by
  have h : dataMarker.length = 6 := by decide
  rw [← h, List.drop_left]

lemma processLine_done (parse : Str → Option Frame) (cid0 : Option Str) (aid : Str)
    (st : ExchangeState) :
    processLine parse cid0 aid st (dataMarker ++ doneSentinel) = st := by
  unfold processLine
  rw [dataMarker_isPrefixOf_append, drop_six_append]
  simp

lemma lineEvents_done (parse : Str → Option Frame) (cid0 : Option Str) :
    lineEvents parse cid0 (dataMarker ++ doneSentinel) = [] := by
  unfold lineEvents
  rw [dataMarker_isPrefixOf_append, drop_six_append]
  simp

lemma processLine_fallback (parse : Str → Option Frame) (cid0 : Option Str) (aid : Str)
    (st : ExchangeState) (data : Str) (hp : parse data = none) (hd : data ≠ doneSentinel) :
    processLine parse cid0 aid st (dataMarker ++ data) =
      (if (trimL data).isEmpty then st
       else { st with messages := appendToMessage aid data st.messages }) := by
  unfold processLine
  rw [dataMarker_isPrefixOf_append, drop_six_append]
  simp [hp, hd]

lemma lineEvents_fallback (parse : Str → Option Frame) (cid0 : Option Str)
    (data : Str) (hp : parse data = none) (hd : data ≠ doneSentinel) :
    lineEvents parse cid0 (dataMarker ++ data) =
      (if (trimL data).isEmpty then [] else [Event.text data]) := by
  unfold lineEvents
  rw [dataMarker_isPrefixOf_append, drop_six_append]
  simp [hp, hd]

/-! ### Claims -/

/-- C1, counterexample: the same byte sequence cut at a boundary inside a
`data: ` line decodes to different event sequences, because the code keeps
no carry-over buffer between chunks -- the partial trailing line `data: he`
is decoded immediately as payload `he`, and the continuation `llo` is
dropped as an unmarked line. -/
theorem claim_C1_counterexample :
    ("data: he".toList ++ "llo\n".toList = "data: hello\n".toList) ∧
    decodeEvents miniParse none ["data: he".toList, "llo\n".toList] ≠
      decodeEvents miniParse none ["data: hello\n".toList] := by
  decide

/-- C1, amended: decoding is invariant under chunk boundaries only when
every boundary falls on a line boundary (each chunk empty or
newline-terminated): then any two such chunkings of the same byte sequence
yield the same event sequence and the same final exchange state. -/
theorem claim_C1 (parse : Str → Option Frame) (cid0 : Option Str) (aid : Str)
    (st : ExchangeState) (cs1 cs2 : List Str)
    (h1 : ∀ c ∈ cs1, nlTerminated c = true) (h2 : ∀ c ∈ cs2, nlTerminated c = true)
    (hb : cs1.flatten = cs2.flatten) :
    decodeEvents parse cid0 cs1 = decodeEvents parse cid0 cs2 ∧
    processChunks parse cid0 aid st cs1 = processChunks parse cid0 aid st cs2 := by
  have he : decodeEvents parse cid0 cs1 = decodeEvents parse cid0 cs2 := by
    rw [decodeEvents_flatten_of_terminated parse cid0 h1,
      decodeEvents_flatten_of_terminated parse cid0 h2, hb]
  exact ⟨he, by rw [processChunks_eq, processChunks_eq, he]⟩

/-- C1, witness: two line-aligned chunkings of `data: a\ndata: b\n` decode
identically. -/
theorem claim_C1_witness :
    decodeEvents miniParse none ["data: a\n".toList, "data: b\n".toList] =
      decodeEvents miniParse none ["data: a\ndata: b\n".toList] ∧
    processChunks miniParse none "9".toList ⟨[], none⟩
        ["data: a\n".toList, "data: b\n".toList] =
      processChunks miniParse none "9".toList ⟨[], none⟩
        ["data: a\ndata: b\n".toList] :=
  claim_C1 miniParse none "9".toList ⟨[], none⟩
    ["data: a\n".toList, "data: b\n".toList] ["data: a\ndata: b\n".toList]
    (by decide) (by decide) (by decide)

/-- C2, counterexample: after a `data: [DONE]` line the code merely skips
that line (`continue`): a later `data: hi` line still produces a text
event and still mutates the transcript. -/
theorem claim_C2_counterexample :
    decodeEvents miniParse none ["data: [DONE]\ndata: hi\n".toList] =
      [Event.text "hi".toList] ∧
    processChunks miniParse none "9".toList
        ⟨[⟨"9".toList, Role.assistant, []⟩], none⟩
        ["data: [DONE]\ndata: hi\n".toList] ≠
      ⟨[⟨"9".toList, Role.assistant, []⟩], none⟩ := by
  decide

/-- C2, amended: a line whose payload is exactly `[DONE]` produces no event
and leaves the state unchanged, but decoding does not stop there: the lines
after it are processed exactly as if the terminator line were absent. -/
theorem claim_C2 (parse : Str → Option Frame) (cid0 : Option Str) (aid : Str) :
    (∀ st : ExchangeState,
      processLine parse cid0 aid st (dataMarker ++ doneSentinel) = st) ∧
    lineEvents parse cid0 (dataMarker ++ doneSentinel) = [] ∧
    (∀ (st : ExchangeState) (ls1 ls2 : List Str),
      (ls1 ++ (dataMarker ++ doneSentinel) :: ls2).foldl
          (processLine parse cid0 aid) st =
        (ls1 ++ ls2).foldl (processLine parse cid0 aid) st) := by
  refine ⟨fun st => processLine_done parse cid0 aid st, lineEvents_done parse cid0, ?_⟩
  intro st ls1 ls2
  rw [List.foldl_append, List.foldl_append, List.foldl_cons, processLine_done]

lemma processChunks_messages_shape (parse : Str → Option Frame)
    (cid0 cidS : Option Str) (uid aid : Str) (msgs0 : List Message)
    (ucontent : Str) (chunks : List Str)
    (hfresh : ∀ m ∈ msgs0, m.id ≠ aid) (hneq : uid ≠ aid) :
    (processChunks parse cid0 aid
        ⟨msgs0 ++ [⟨uid, .user, ucontent⟩, ⟨aid, .assistant, []⟩], cidS⟩ chunks).messages =
      msgs0 ++ [⟨uid, .user, ucontent⟩,
        ⟨aid, .assistant, eventTexts (decodeEvents parse cid0 chunks)⟩] := by
  rw [processChunks_eq, foldl_applyEvent_messages]
  show appendToMessage aid _ (msgs0 ++ _) = _
  rw [appendToMessage_append, appendToMessage_of_forall_ne hfresh]
  simp [appendToMessage, hneq]

/-- C3: the code violates the first-occurrence binding its own comment
(`Capture conversation ID from first response`) and the spec describe.
The guard reads the `conversationId` captured by the closure at submit
time, which stays unbound for the whole exchange, so every
`conversation_id` event passes the guard and the LAST one wins: a stream
carrying `c1` then `c2` decodes to both events but leaves the session bound
to `c2`, not `c1`. -/
theorem claim_C3 :
    decodeEvents miniParse none
        ["data: \x7b\"conversation_id\":\"c1\"\x7d\n".toList,
         "data: \x7b\"conversation_id\":\"c2\"\x7d\n".toList] =
      [Event.convId "c1".toList, Event.convId "c2".toList] ∧
    (handleSubmit miniParse "100".toList "101".toList
        ⟨[], none, false, "hi".toList⟩
        (.ok ["data: \x7b\"conversation_id\":\"c1\"\x7d\n".toList,
              "data: \x7b\"conversation_id\":\"c2\"\x7d\n".toList])).conversationId =
      some "c2".toList := by
  decide

/-- C4: a submit is a no-op when the trimmed input is empty or a stream is
already in flight: the whole state (transcript included) is unchanged and
no transport interaction has any effect. -/
theorem claim_C4 (parse : Str → Option Frame) (uid aid : Str) (st : ChatState)
    (tr : Transport)
    (h : (trimL st.input).isEmpty = true ∨ st.isStreaming = true) :
    handleSubmit parse uid aid st tr = st := by
  unfold handleSubmit
  rcases h with h | h <;> simp [h]

/-- C4, witness: submitting while streaming changes nothing. -/
theorem claim_C4_witness :
    handleSubmit miniParse "100".toList "101".toList
        ⟨[], none, true, "hi".toList⟩ (.ok ["data: x\n".toList]) =
      ⟨[], none, true, "hi".toList⟩ :=
  claim_C4 miniParse "100".toList "101".toList ⟨[], none, true, "hi".toList⟩
    (.ok ["data: x\n".toList]) (Or.inr rfl)

/-- C5: when the request is rejected or the read throws (after any prefix
of chunks), the accepted submission ends with the placeholder's content
equal to the fixed error text -- whatever fragments had accumulated are
discarded -- while the user's trimmed message and all prior messages are
unchanged, and the session is no longer streaming. -/
theorem claim_C5 (parse : Str → Option Frame) (uid aid : Str) (st : ChatState)
    (pre : List Str)
    (hin : (trimL st.input).isEmpty = false) (hstr : st.isStreaming = false)
    (hfresh : ∀ m ∈ st.messages, m.id ≠ aid) (hneq : uid ≠ aid) :
    (handleSubmit parse uid aid st (.fail pre)).messages =
      st.messages ++ [⟨uid, .user, trimL st.input⟩, ⟨aid, .assistant, errorText⟩] ∧
    (handleSubmit parse uid aid st (.fail pre)).isStreaming = false := by
  unfold handleSubmit
  simp only [hin, hstr, Bool.or_false, Bool.false_eq_true, if_false]
  refine ⟨?_, by trivial⟩
  show overwriteError aid (processChunks _ _ _ _ _).messages = _
  rw [processChunks_messages_shape parse st.conversationId st.conversationId uid aid
    st.messages (trimL st.input) pre hfresh hneq]
  rw [overwriteError_append, overwriteError_of_forall_ne hfresh]
  simp [overwriteError, hneq]

/-- C5, witness: the spec's mid-stream failure scenario -- a fragment `Par`
arrives, then the read fails; the placeholder ends as the error text, not
`Par`. -/
theorem claim_C5_witness :
    (handleSubmit miniParse "100".toList "101".toList
        ⟨[], none, false, "hi".toList⟩
        (.fail ["data: \x7b\"content\":\"Par\"\x7d\n".toList])).messages =
      [] ++ [⟨"100".toList, .user, trimL "hi".toList⟩,
        ⟨"101".toList, .assistant, errorText⟩] ∧
    (handleSubmit miniParse "100".toList "101".toList
        ⟨[], none, false, "hi".toList⟩
        (.fail ["data: \x7b\"content\":\"Par\"\x7d\n".toList])).isStreaming = false :=
  claim_C5 miniParse "100".toList "101".toList ⟨[], none, false, "hi".toList⟩
    ["data: \x7b\"content\":\"Par\"\x7d\n".toList]
    (by decide) rfl (by decide) (by decide)

/-- C6: an accepted submission whose stream completes leaves the transcript
extended by the trimmed user message and a placeholder whose content is the
concatenation, in arrival order, of all decoded text fragments. -/
theorem claim_C6 (parse : Str → Option Frame) (uid aid : Str) (st : ChatState)
    (chunks : List Str)
    (hin : (trimL st.input).isEmpty = false) (hstr : st.isStreaming = false)
    (hfresh : ∀ m ∈ st.messages, m.id ≠ aid) (hneq : uid ≠ aid) :
    (handleSubmit parse uid aid st (.ok chunks)).messages =
      st.messages ++ [⟨uid, .user, trimL st.input⟩,
        ⟨aid, .assistant, eventTexts (decodeEvents parse st.conversationId chunks)⟩] := by
  unfold handleSubmit
  simp only [hin, hstr, Bool.or_false, Bool.false_eq_true, if_false]
  show (processChunks _ _ _ _ _).messages = _
  exact processChunks_messages_shape parse st.conversationId st.conversationId uid aid
    st.messages (trimL st.input) chunks hfresh hneq

/-- C6, witness: the spec's simple-exchange scenario -- the frames
`\x7b"conversation_id":"c1"\x7d`, `\x7b"content":"Hel"\x7d`,
`\x7b"content":"lo"\x7d`, `[DONE]` decode to a conversation-id event and two
fragments, the placeholder ends as `Hello`, and the session is bound to
`c1`. -/
theorem claim_C6_witness :
    ((handleSubmit miniParse "100".toList "101".toList
        ⟨[], none, false, "hi".toList⟩ (.ok [scenarioChunk])).messages =
      [] ++ [⟨"100".toList, .user, trimL "hi".toList⟩,
        ⟨"101".toList, .assistant,
          eventTexts (decodeEvents miniParse none [scenarioChunk])⟩]) ∧
    decodeEvents miniParse none [scenarioChunk] =
      [Event.convId "c1".toList, Event.text "Hel".toList, Event.text "lo".toList] ∧
    eventTexts (decodeEvents miniParse none [scenarioChunk]) = "Hello".toList ∧
    (handleSubmit miniParse "100".toList "101".toList
        ⟨[], none, false, "hi".toList⟩ (.ok [scenarioChunk])).conversationId =
      some "c1".toList :=
  ⟨claim_C6 miniParse "100".toList "101".toList ⟨[], none, false, "hi".toList⟩
      [scenarioChunk] (by decide) rfl (by decide) (by decide),
    by decide, by decide, by decide⟩

/-- C7: a `data: ` line whose payload is not `[DONE]` and fails structured
parsing is handled without surfacing any error: if the payload is non-empty
after trimming it is appended verbatim (untrimmed) to the placeholder as a
plain-text fragment; if it trims to empty it produces no event and no
state change. -/
theorem claim_C7 (parse : Str → Option Frame) (cid0 : Option Str) (aid : Str)
    (st : ExchangeState) (data : Str)
    (hp : parse data = none) (hd : data ≠ doneSentinel) :
    processLine parse cid0 aid st (dataMarker ++ data) =
      (if (trimL data).isEmpty then st
       else { st with messages := appendToMessage aid data st.messages }) ∧
    lineEvents parse cid0 (dataMarker ++ data) =
      (if (trimL data).isEmpty then [] else [Event.text data]) :=
  ⟨processLine_fallback parse cid0 aid st data hp hd,
   lineEvents_fallback parse cid0 data hp hd⟩

/-- C7, witness: the spec's plain-text fallback scenario -- `data: not-json`
appends `not-json` verbatim, as a single text event. -/
theorem claim_C7_witness :
    processLine miniParse none "9".toList ⟨[⟨"9".toList, .assistant, []⟩], none⟩
        (dataMarker ++ "not-json".toList) =
      (if (trimL "not-json".toList).isEmpty then ⟨[⟨"9".toList, .assistant, []⟩], none⟩
       else { messages := appendToMessage "9".toList "not-json".toList
                [⟨"9".toList, .assistant, []⟩], conversationId := none }) ∧
    lineEvents miniParse none (dataMarker ++ "not-json".toList) =
      (if (trimL "not-json".toList).isEmpty then []
       else [Event.text "not-json".toList]) :=
  claim_C7 miniParse none "9".toList ⟨[⟨"9".toList, .assistant, []⟩], none⟩
    "not-json".toList (by decide) (by decide)

/-- C8: a fragment application touches exactly the messages whose id is the
placeholder's: the length is unchanged, every message with a different id
is unchanged at its position, and when no message carries that id (the
transcript was replaced meanwhile) the application is a no-op. -/
theorem claim_C8 (aid c : Str) (msgs : List Message) :
    (appendToMessage aid c msgs).length = msgs.length ∧
    (∀ (i : Nat) (m : Message), msgs[i]? = some m → m.id ≠ aid →
      (appendToMessage aid c msgs)[i]? = some m) ∧
    ((∀ m ∈ msgs, m.id ≠ aid) → appendToMessage aid c msgs = msgs) := by
  refine ⟨by simp [appendToMessage], ?_, fun h => appendToMessage_of_forall_ne h c⟩
  intro i m hm hne
  unfold appendToMessage
  rw [List.getElem?_map, hm]
  simp [hne]

/-- C8, witness: a fragment aimed at an absent placeholder id leaves a
foreign transcript untouched, elementwise and as a whole. -/
theorem claim_C8_witness :
    (appendToMessage "9".toList "x".toList [⟨"7".toList, .user, "q".toList⟩])[0]? =
      some ⟨"7".toList, .user, "q".toList⟩ ∧
    appendToMessage "9".toList "x".toList [⟨"7".toList, .user, "q".toList⟩] =
      [⟨"7".toList, .user, "q".toList⟩] :=
  ⟨(claim_C8 "9".toList "x".toList [⟨"7".toList, .user, "q".toList⟩]).2.1 0
      ⟨"7".toList, .user, "q".toList⟩ (by decide) (by decide),
   (claim_C8 "9".toList "x".toList [⟨"7".toList, .user, "q".toList⟩]).2.2 (by decide)⟩

lemma dropWhile_append_all {p : Char → Bool} {l1 : Str} (h : ∀ c ∈ l1, p c = true)
    (l2 : Str) : (l1 ++ l2).dropWhile p = l2.dropWhile p := by
  induction l1 with
  | nil => rfl
  | cons a t ih =>
    rw [List.cons_append, List.dropWhile_cons,
      if_pos (h a (List.mem_cons_self a t))]
    exact ih fun c hc => h c (List.mem_cons_of_mem a hc)

lemma trimL_doneSentinel_append {ws : Str} (hall : ∀ c ∈ ws, isWs c = true) :
    trimL (doneSentinel ++ ws) = doneSentinel := by
  unfold trimL
  have h1 : (doneSentinel ++ ws).dropWhile isWs = doneSentinel ++ ws := by
    rw [show doneSentinel ++ ws = '[' :: ("DONE]".toList ++ ws) from rfl,
      List.dropWhile_cons, if_neg (by decide)]
  have h2 : ∀ c ∈ ws.reverse, isWs c = true :=
    fun c hc => hall c (List.mem_reverse.mp hc)
  rw [h1, List.reverse_append, dropWhile_append_all h2,
    show doneSentinel.reverse.dropWhile isWs = doneSentinel.reverse from by decide,
    List.reverse_reverse]

lemma doneSentinel_append_ne {ws : Str} (hws : ws ≠ []) :
    doneSentinel ++ ws ≠ doneSentinel := by
  intro h
  have hlen := congrArg List.length h
  rw [List.length_append] at hlen
  have : ws.length = 0 := by omega
  exact hws (List.length_eq_zero.mp this)

/-- C10: terminator recognition is an exact, untrimmed comparison: for any
payload consisting of `[DONE]` followed by a non-empty run of trailing
whitespace and/or carriage returns (e.g. `[DONE]\r` from a CRLF stream,
`[DONE] `, `[DONE]\t`), the payload is not the terminator; it fails
structured parsing, is non-empty after trimming, and is therefore appended
verbatim -- trailing whitespace included -- as a text fragment. -/
theorem claim_C10 (parse : Str → Option Frame) (cid0 : Option Str) (aid : Str)
    (st : ExchangeState) (ws : Str) (hws : ws ≠ [])
    (hall : ∀ c ∈ ws, isWs c = true)
    (hp : parse (doneSentinel ++ ws) = none) :
    processLine parse cid0 aid st (dataMarker ++ (doneSentinel ++ ws)) =
      { st with messages := appendToMessage aid (doneSentinel ++ ws) st.messages } ∧
    lineEvents parse cid0 (dataMarker ++ (doneSentinel ++ ws)) =
      [Event.text (doneSentinel ++ ws)] := by
  have hd : doneSentinel ++ ws ≠ doneSentinel := doneSentinel_append_ne hws
  have ht : (trimL (doneSentinel ++ ws)).isEmpty = false := by
    rw [trimL_doneSentinel_append hall]
    decide
  constructor
  · rw [processLine_fallback parse cid0 aid st _ hp hd,
      if_neg (by rw [ht]; exact Bool.false_ne_true)]
  · rw [lineEvents_fallback parse cid0 _ hp hd,
      if_neg (by rw [ht]; exact Bool.false_ne_true)]

/-- C10, witness: under the modelled `JSON.parse`, `data: [DONE]\r` appends
`[DONE]\r` to the placeholder instead of terminating. -/
theorem claim_C10_witness :
    processLine miniParse none "9".toList ⟨[⟨"9".toList, .assistant, []⟩], none⟩
        (dataMarker ++ (doneSentinel ++ "\r".toList)) =
      { messages := appendToMessage "9".toList (doneSentinel ++ "\r".toList)
          [⟨"9".toList, .assistant, []⟩], conversationId := none } ∧
    lineEvents miniParse none (dataMarker ++ (doneSentinel ++ "\r".toList)) =
      [Event.text (doneSentinel ++ "\r".toList)] :=
  claim_C10 miniParse none "9".toList ⟨[⟨"9".toList, .assistant, []⟩], none⟩
    "\r".toList (by decide) (by decide) (by decide)

lemma idRole_appendToMessage (aid c : Str) (msgs : List Message) :
    (appendToMessage aid c msgs).map idRole = msgs.map idRole := by
  unfold appendToMessage
  rw [List.map_map]
  apply List.map_congr_left
  intro m _
  by_cases h : m.id = aid <;> simp [idRole, h]

lemma idRole_processChunks (parse : Str → Option Frame) (cid0 : Option Str)
    (aid : Str) (st : ExchangeState) (chunks : List Str) :
    (processChunks parse cid0 aid st chunks).messages.map idRole =
      st.messages.map idRole := by
  rw [processChunks_eq, foldl_applyEvent_messages, idRole_appendToMessage]

lemma submitStep_shape (parse : Str → Option Frame) (st : ChatState) (sub : Submission)
    (hin : (trimL sub.text).isEmpty = false) (hstr : st.isStreaming = false) :
    (submitStep parse st sub).messages.map idRole =
      st.messages.map idRole ++ [(sub.uid, Role.user), (sub.aid, Role.assistant)] ∧
    (submitStep parse st sub).isStreaming = false := by
  unfold submitStep handleSubmit
  obtain ⟨msgs, cid, strm, inp⟩ := st
  dsimp only at hstr ⊢
  subst hstr
  simp only [hin, Bool.or_false, Bool.false_eq_true, if_false]
  refine ⟨?_, by trivial⟩
  show (processChunks _ _ _ _ _).messages.map idRole = _
  rw [idRole_processChunks]
  simp [idRole]

lemma runSubmits_shape (parse : Str → Option Frame) :
    ∀ (subs : List Submission) (st : ChatState), st.isStreaming = false →
      (∀ s ∈ subs, (trimL s.text).isEmpty = false) →
      (runSubmits parse st subs).messages.map idRole =
        st.messages.map idRole ++
          (subs.map fun s => [(s.uid, Role.user), (s.aid, Role.assistant)]).flatten ∧
      (runSubmits parse st subs).isStreaming = false := by
  intro subs
  induction subs with
  | nil =>
    intro st h1 _
    exact ⟨by simp [runSubmits], by simpa [runSubmits] using h1⟩
  | cons s r ih =>
    intro st h1 h2
    have hstep : runSubmits parse st (s :: r) =
        runSubmits parse (submitStep parse st s) r := rfl
    have hs := submitStep_shape parse st s (h2 s (List.mem_cons_self s r)) h1
    have hr := ih (submitStep parse st s) hs.2
      (fun x hx => h2 x (List.mem_cons_of_mem s hx))
    refine ⟨?_, by rw [hstep]; exact hr.2⟩
    rw [hstep, hr.1, hs.1]
    simp

lemma flatten_pairs_length (l : List Submission) :
    ((l.map fun s => [(s.uid, Role.user), (s.aid, Role.assistant)]).flatten).length =
      2 * l.length := by
  induction l with
  | nil => rfl
  | cons a r ih =>
    simp only [List.map_cons, List.flatten_cons, List.length_append, List.length_cons, ih]
    simp
    omega

/-- C9: a sequence of accepted submissions that all complete successfully
leaves a transcript of exactly two messages per submission -- the user
entry immediately followed by its assistant placeholder -- and the id and
role of every message are exactly the ones minted at creation, never
mutated afterwards. -/
theorem claim_C9 (parse : Str → Option Frame) (subs : List Submission) (st0 : ChatState)
    (hm : st0.messages = []) (hstr : st0.isStreaming = false)
    (hacc : ∀ s ∈ subs, (trimL s.text).isEmpty = false) :
    (runSubmits parse st0 subs).messages.map idRole =
      (subs.map fun s => [(s.uid, Role.user), (s.aid, Role.assistant)]).flatten ∧
    (runSubmits parse st0 subs).messages.length = 2 * subs.length := by
  have h := runSubmits_shape parse subs st0 hstr hacc
  constructor
  · rw [h.1, hm]
    simp
  · have hlen := congrArg List.length h.1
    rw [List.length_map, hm] at hlen
    simp only [List.map_nil, List.length_nil, List.nil_append] at hlen
    rw [hlen, flatten_pairs_length]

/-- C9, witness: two accepted submissions produce a four-message transcript
user/assistant/user/assistant with the minted ids. -/
theorem claim_C9_witness :
    (runSubmits miniParse ⟨[], none, false, []⟩
        [⟨"a".toList, "1".toList, "2".toList, ["data: x\n".toList]⟩,
         ⟨"b".toList, "3".toList, "4".toList, []⟩]).messages.map idRole =
      (([⟨"a".toList, "1".toList, "2".toList, ["data: x\n".toList]⟩,
         ⟨"b".toList, "3".toList, "4".toList, []⟩] : List Submission).map
        fun s => [(s.uid, Role.user), (s.aid, Role.assistant)]).flatten ∧
    (runSubmits miniParse ⟨[], none, false, []⟩
        [⟨"a".toList, "1".toList, "2".toList, ["data: x\n".toList]⟩,
         ⟨"b".toList, "3".toList, "4".toList, []⟩]).messages.length =
      2 * ([⟨"a".toList, "1".toList, "2".toList, ["data: x\n".toList]⟩,
            ⟨"b".toList, "3".toList, "4".toList, []⟩] : List Submission).length :=
  claim_C9 miniParse
    [⟨"a".toList, "1".toList, "2".toList, ["data: x\n".toList]⟩,
     ⟨"b".toList, "3".toList, "4".toList, []⟩]
    ⟨[], none, false, []⟩ rfl rfl (by decide)

end Graphrag
